import Mathlib

/-!
Verification of the exnaton energy-meter service: a shallow embedding of
the tariff classifier (`src/backend/energy_pricing.py`), the cost
breakdown / heatmap / pagination helpers (`src/backend/main.py`) and the
ingestion sync engine (`src/data_loader/main.py`), with theorems settling
the specification claims.  Monetary and energy quantities are embedded as
exact rationals; the `round(x, n)` presentation-layer calls of the Python
code (binary floating point) are abstracted away, so theorems speak about
the exact values the code accumulates before display rounding.
-/

namespace Exnaton

/-! ### Tariff classifier (src/backend/energy_pricing.py) -/

/-- SWISS_ENERGY_CONFIG["high_tariff"]["rate_chf_per_kwh"] = 0.32. -/
def high_tariff_rate_chf_per_kwh : ℚ := 32 / 100

/-- SWISS_ENERGY_CONFIG["low_tariff"]["rate_chf_per_kwh"] = 0.22. -/
def low_tariff_rate_chf_per_kwh : ℚ := 22 / 100

/-- SWISS_ENERGY_CONFIG["high_tariff"]["schedule"]["weekdays"]["start"]. -/
def ht_start : Nat := 7

/-- SWISS_ENERGY_CONFIG["high_tariff"]["schedule"]["weekdays"]["end"]. -/
def ht_end : Nat := 20

/-- The dict returned by `get_tariff_for_hour` (fields "tariff", "name", "rate"). -/
structure TariffInfo where
  tariff : String
  name : String
  rate : ℚ
deriving DecidableEq, Repr

/-- Embeds `get_tariff_for_hour(hour, is_weekend)`: weekends are always low
tariff; on weekdays the high tariff applies iff `ht_start <= hour < ht_end`. -/
def get_tariff_for_hour (hour : Nat) (is_weekend : Bool) : TariffInfo :=
  if is_weekend then
    ⟨"low", "Niedertarif (NT)", low_tariff_rate_chf_per_kwh⟩
  else if ht_start ≤ hour ∧ hour < ht_end then
    ⟨"high", "Hochtarif (HT)", high_tariff_rate_chf_per_kwh⟩
  else
    ⟨"low", "Niedertarif (NT)", low_tariff_rate_chf_per_kwh⟩

/-! ### Cost breakdown (fetch_cost_breakdown in src/backend/main.py) -/

/-- One row of the cost query: consumption summed per (hour, day-of-week)
cell; `day_of_week` follows PostgreSQL `EXTRACT(DOW ...)` (0 = Sunday). -/
structure CostRow where
  hour : Nat
  day_of_week : Nat
  total_kwh : ℚ
deriving DecidableEq, Repr

/-- The weekend test in `fetch_cost_breakdown`: `row["day_of_week"] in (0, 6)`. -/
def rowIsWeekend (r : CostRow) : Bool :=
  r.day_of_week = 0 ∨ r.day_of_week = 6

/-- The accumulation loop of `fetch_cost_breakdown`: starting from
`(0.0, 0.0)` each row's kWh is added to the high- or low-tariff total
according to the classifier. -/
def tariffSums (rows : List CostRow) : ℚ × ℚ :=
  rows.foldl
    (fun acc r =>
      if (get_tariff_for_hour r.hour (rowIsWeekend r)).tariff = "high" then
        (acc.1 + r.total_kwh, acc.2)
      else
        (acc.1, acc.2 + r.total_kwh))
    (0, 0)

/-- Per-tariff section of the breakdown report. -/
structure TariffSection where
  kwh : ℚ
  cost_chf : ℚ
  rate_chf_per_kwh : ℚ
  percent_of_total : ℚ
deriving DecidableEq, Repr

/-- Counterfactual comparison section of the breakdown report. -/
structure CostComparisonR where
  all_high_tariff_cost : ℚ
  all_low_tariff_cost : ℚ
  potential_savings_chf : ℚ
deriving DecidableEq, Repr

/-- The full dict returned by `fetch_cost_breakdown`. -/
structure CostBreakdownR where
  total_kwh : ℚ
  total_cost_chf : ℚ
  high_tariff : TariffSection
  low_tariff : TariffSection
  effective_rate_chf_per_kwh : ℚ
  comparison : CostComparisonR
deriving DecidableEq, Repr

/-- Embeds the report construction of `fetch_cost_breakdown` (exact values;
the Python `round(x, n)` display rounding is abstracted).  The
`if 0 < total then _ else 0` guards embed the code's
`... if total_kwh > 0 else 0` zero-division guards. -/
def fetch_cost_breakdown (rows : List CostRow) : CostBreakdownR :=
  let sums := tariffSums rows
  let high_tariff_kwh := sums.1
  let low_tariff_kwh := sums.2
  let total_kwh := high_tariff_kwh + low_tariff_kwh
  let high_cost := high_tariff_kwh * high_tariff_rate_chf_per_kwh
  let low_cost := low_tariff_kwh * low_tariff_rate_chf_per_kwh
  let total_cost := high_cost + low_cost
  { total_kwh := total_kwh
    total_cost_chf := total_cost
    high_tariff :=
      { kwh := high_tariff_kwh
        cost_chf := high_cost
        rate_chf_per_kwh := high_tariff_rate_chf_per_kwh
        percent_of_total :=
          if 0 < total_kwh then high_tariff_kwh / total_kwh * 100 else 0 }
    low_tariff :=
      { kwh := low_tariff_kwh
        cost_chf := low_cost
        rate_chf_per_kwh := low_tariff_rate_chf_per_kwh
        percent_of_total :=
          if 0 < total_kwh then low_tariff_kwh / total_kwh * 100 else 0 }
    effective_rate_chf_per_kwh :=
      if 0 < total_kwh then total_cost / total_kwh else 0
    comparison :=
      { all_high_tariff_cost := total_kwh * high_tariff_rate_chf_per_kwh
        all_low_tariff_cost := total_kwh * low_tariff_rate_chf_per_kwh
        potential_savings_chf :=
          high_tariff_kwh *
            (high_tariff_rate_chf_per_kwh - low_tariff_rate_chf_per_kwh) } }

/-! ### Helper lemmas about the tariff accumulation -/

/-- The two tariff accumulators always sum to the total consumption of the
processed rows. -/
lemma tariffSums_add (rows : List CostRow) :
    (tariffSums rows).1 + (tariffSums rows).2 =
      (rows.map CostRow.total_kwh).sum := by
  unfold tariffSums
  suffices h : ∀ a b : ℚ,
      (rows.foldl
        (fun acc r =>
          if (get_tariff_for_hour r.hour (rowIsWeekend r)).tariff = "high" then
            (acc.1 + r.total_kwh, acc.2)
          else
            (acc.1, acc.2 + r.total_kwh)) (a, b)).1 +
      (rows.foldl
        (fun acc r =>
          if (get_tariff_for_hour r.hour (rowIsWeekend r)).tariff = "high" then
            (acc.1 + r.total_kwh, acc.2)
          else
            (acc.1, acc.2 + r.total_kwh)) (a, b)).2 =
      a + b + (rows.map CostRow.total_kwh).sum by
    simpa using h 0 0
  induction rows with
  | nil => intro a b; simp
  | cons r rs ih =>
    intro a b
    by_cases hc : (get_tariff_for_hour r.hour (rowIsWeekend r)).tariff = "high"
    · simp only [List.foldl_cons, hc, if_pos, List.map_cons, List.sum_cons]
      rw [ih]
      ring
    · simp only [List.foldl_cons, hc, if_neg, List.map_cons, List.sum_cons,
        if_false]
      rw [ih]
      ring

/-- Nonnegative rows give nonnegative tariff accumulators. -/
lemma tariffSums_nonneg (rows : List CostRow)
    (h : ∀ r ∈ rows, 0 ≤ r.total_kwh) :
    0 ≤ (tariffSums rows).1 ∧ 0 ≤ (tariffSums rows).2 := by
  unfold tariffSums
  suffices hgen : ∀ a b : ℚ, 0 ≤ a → 0 ≤ b →
      0 ≤ (rows.foldl
        (fun acc r =>
          if (get_tariff_for_hour r.hour (rowIsWeekend r)).tariff = "high" then
            (acc.1 + r.total_kwh, acc.2)
          else
            (acc.1, acc.2 + r.total_kwh)) (a, b)).1 ∧
      0 ≤ (rows.foldl
        (fun acc r =>
          if (get_tariff_for_hour r.hour (rowIsWeekend r)).tariff = "high" then
            (acc.1 + r.total_kwh, acc.2)
          else
            (acc.1, acc.2 + r.total_kwh)) (a, b)).2 by
    simpa using hgen 0 0 le_rfl le_rfl
  induction rows with
  | nil => intro a b ha hb; simpa using ⟨ha, hb⟩
  | cons r rs ih =>
    intro a b ha hb
    have hr : 0 ≤ r.total_kwh := h r (List.mem_cons_self r rs)
    have hrs : ∀ x ∈ rs, 0 ≤ x.total_kwh := fun x hx =>
      h x (List.mem_cons_of_mem r hx)
    by_cases hc : (get_tariff_for_hour r.hour (rowIsWeekend r)).tariff = "high"
    · simp only [List.foldl_cons, hc, if_pos]
      exact ih hrs (a + r.total_kwh) b (by linarith) hb
    · simp only [List.foldl_cons, hc, if_false]
      exact ih hrs a (b + r.total_kwh) ha (by linarith)

/-! ### Claim theorems: tariff classifier and cost breakdown -/

/-- C2.  Tariff classification: for every hour 0-23 and both weekend flags,
`get_tariff_for_hour` returns exactly one of the two tariff classes
("high"/peak or "low"/off-peak); it returns "low" whenever the weekend flag
is set, "high" exactly when the flag is clear and the hour lies in [7, 20),
and "low" otherwise — so the 48 (hour, weekend) combinations are
partitioned with no gap and no overlap. -/
theorem tariff_partition (h : Fin 24) (w : Bool) :
    (((get_tariff_for_hour h.val w).tariff = "high" ∧
        ¬ (get_tariff_for_hour h.val w).tariff = "low") ∨
      ((get_tariff_for_hour h.val w).tariff = "low" ∧
        ¬ (get_tariff_for_hour h.val w).tariff = "high")) ∧
    (w = true → (get_tariff_for_hour h.val w).tariff = "low") ∧
    (w = false →
      ((get_tariff_for_hour h.val w).tariff = "high" ↔
        7 ≤ h.val ∧ h.val < 20)) := by
  revert h w
  decide

/-- C1.  Cost reconciliation: the breakdown's high-tariff kWh plus
low-tariff kWh equals its total kWh, which equals the sum of the filtered
window's per-cell consumption (no double counting, no loss); and for
nonnegative consumption the all-high-tariff counterfactual cost is at
least the total cost, which is at least the all-low-tariff counterfactual
cost. -/
theorem cost_reconciliation (rows : List CostRow)
    (hnn : ∀ r ∈ rows, 0 ≤ r.total_kwh) :
    (fetch_cost_breakdown rows).high_tariff.kwh +
        (fetch_cost_breakdown rows).low_tariff.kwh =
      (fetch_cost_breakdown rows).total_kwh ∧
    (fetch_cost_breakdown rows).total_kwh =
      (rows.map CostRow.total_kwh).sum ∧
    (fetch_cost_breakdown rows).total_cost_chf ≤
      (fetch_cost_breakdown rows).comparison.all_high_tariff_cost ∧
    (fetch_cost_breakdown rows).comparison.all_low_tariff_cost ≤
      (fetch_cost_breakdown rows).total_cost_chf := by
  obtain ⟨hh, hl⟩ := tariffSums_nonneg rows hnn
  have hsum := tariffSums_add rows
  have e1 : (fetch_cost_breakdown rows).high_tariff.kwh = (tariffSums rows).1 := rfl
  have e2 : (fetch_cost_breakdown rows).low_tariff.kwh = (tariffSums rows).2 := rfl
  have e3 : (fetch_cost_breakdown rows).total_kwh =
      (tariffSums rows).1 + (tariffSums rows).2 := rfl
  have e4 : (fetch_cost_breakdown rows).total_cost_chf =
      (tariffSums rows).1 * high_tariff_rate_chf_per_kwh +
        (tariffSums rows).2 * low_tariff_rate_chf_per_kwh := rfl
  have e5 : (fetch_cost_breakdown rows).comparison.all_high_tariff_cost =
      ((tariffSums rows).1 + (tariffSums rows).2) *
        high_tariff_rate_chf_per_kwh := rfl
  have e6 : (fetch_cost_breakdown rows).comparison.all_low_tariff_cost =
      ((tariffSums rows).1 + (tariffSums rows).2) *
        low_tariff_rate_chf_per_kwh := rfl
  have hht : high_tariff_rate_chf_per_kwh = 32 / 100 := rfl
  have hlt : low_tariff_rate_chf_per_kwh = 22 / 100 := rfl
  refine ⟨by rw [e1, e2, e3], by rw [e3, hsum], ?_, ?_⟩
  · rw [e4, e5, hht, hlt]
    nlinarith [hh, hl]
  · rw [e4, e6, hht, hlt]
    nlinarith [hh, hl]

/-- Witness for `cost_reconciliation` on a concrete two-cell window. -/
theorem cost_reconciliation_witness :
    (fetch_cost_breakdown [⟨10, 1, 2⟩, ⟨22, 6, 3⟩]).high_tariff.kwh +
        (fetch_cost_breakdown [⟨10, 1, 2⟩, ⟨22, 6, 3⟩]).low_tariff.kwh =
      (fetch_cost_breakdown [⟨10, 1, 2⟩, ⟨22, 6, 3⟩]).total_kwh ∧
    (fetch_cost_breakdown [⟨10, 1, 2⟩, ⟨22, 6, 3⟩]).total_kwh = 5 := by
  have h := cost_reconciliation [⟨10, 1, 2⟩, ⟨22, 6, 3⟩]
    (by intro r hr; fin_cases hr <;> norm_num)
  refine ⟨h.1, ?_⟩
  rw [h.2.1]
  norm_num

/-- C6.  Zero-total guard: when the filtered window's total kWh is zero,
both tariffs' percent-of-total and the effective blended rate are reported
as 0 — the `if total_kwh > 0` guards of the code keep the operation from
dividing by a zero total. -/
theorem zero_total_guard (rows : List CostRow)
    (h0 : (fetch_cost_breakdown rows).total_kwh = 0) :
    (fetch_cost_breakdown rows).high_tariff.percent_of_total = 0 ∧
    (fetch_cost_breakdown rows).low_tariff.percent_of_total = 0 ∧
    (fetch_cost_breakdown rows).effective_rate_chf_per_kwh = 0 := by
  have e3 : (fetch_cost_breakdown rows).total_kwh =
      (tariffSums rows).1 + (tariffSums rows).2 := rfl
  have h0' : (tariffSums rows).1 + (tariffSums rows).2 = 0 := by rw [← e3, h0]
  have ep1 : (fetch_cost_breakdown rows).high_tariff.percent_of_total =
      (if 0 < (tariffSums rows).1 + (tariffSums rows).2 then
        (tariffSums rows).1 / ((tariffSums rows).1 + (tariffSums rows).2) * 100
      else 0) := rfl
  have ep2 : (fetch_cost_breakdown rows).low_tariff.percent_of_total =
      (if 0 < (tariffSums rows).1 + (tariffSums rows).2 then
        (tariffSums rows).2 / ((tariffSums rows).1 + (tariffSums rows).2) * 100
      else 0) := rfl
  have ep3 : (fetch_cost_breakdown rows).effective_rate_chf_per_kwh =
      (if 0 < (tariffSums rows).1 + (tariffSums rows).2 then
        ((tariffSums rows).1 * high_tariff_rate_chf_per_kwh +
          (tariffSums rows).2 * low_tariff_rate_chf_per_kwh) /
          ((tariffSums rows).1 + (tariffSums rows).2)
      else 0) := rfl
  rw [ep1, ep2, ep3, h0']
  norm_num

/-- Witness for `zero_total_guard` on the empty window. -/
theorem zero_total_guard_witness :
    (fetch_cost_breakdown []).high_tariff.percent_of_total = 0 ∧
    (fetch_cost_breakdown []).low_tariff.percent_of_total = 0 ∧
    (fetch_cost_breakdown []).effective_rate_chf_per_kwh = 0 :=
  zero_total_guard [] (by
    show (tariffSums []).1 + (tariffSums []).2 = 0
    simp [tariffSums])

/-! ### Pagination (build_pagination_response in src/backend/main.py) -/

/-- The dict returned by `build_pagination_response`. -/
structure PaginationR where
  page : Nat
  per_page : Nat
  total_count : Nat
  total_pages : Nat
  has_next : Bool
  has_prev : Bool
deriving DecidableEq, Repr

/-- Embeds `build_pagination_response(page, per_page, total_count)`.
Python `//` on nonnegative ints is `Nat` division; the endpoint validates
`page >= 1` and `100 <= per_page <= 50000`. -/
def build_pagination_response (page per_page total_count : Nat) : PaginationR :=
  { page := page
    per_page := per_page
    total_count := total_count
    total_pages := max 1 ((total_count + per_page - 1) / per_page)
    has_next := page * per_page < total_count
    has_prev := 1 < page }

/-- For a positive count and page size, `(tc + pp - 1) / pp` is at least 1
(it is the ceiling of `tc / pp`). -/
lemma ceil_div_pos (tc pp : Nat) (htc : 0 < tc) (hpp : 0 < pp) :
    1 ≤ (tc + pp - 1) / pp := by
  rw [Nat.le_div_iff_mul_le hpp]
  omega

/-- C9 counterexample: at `total_count = 0` the code reports
`total_pages = 1` while the ceiling of `0 / per_page` is 0, so the claim's
"totalPages is the ceiling of totalCount/perPage" fails as stated. -/
theorem pagination_counterexample :
    (build_pagination_response 1 100 0).total_pages = 1 ∧
    (0 + 100 - 1) / 100 = 0 ∧
    (build_pagination_response 1 100 0).total_pages ≠ (0 + 100 - 1) / 100 := by
  refine ⟨rfl, by norm_num, ?_⟩
  decide

/-- C9 (amended).  Pagination metadata: `has_next` holds exactly when
`page * per_page < total_count`, `has_prev` exactly when `page > 1`, and
`total_pages` is the ceiling of `total_count / per_page` clamped below by 1
(it equals the exact ceiling whenever `total_count > 0`). -/
theorem pagination_metadata (page per_page total_count : Nat)
    (hpp : 0 < per_page) :
    ((build_pagination_response page per_page total_count).has_next = true ↔
      page * per_page < total_count) ∧
    ((build_pagination_response page per_page total_count).has_prev = true ↔
      1 < page) ∧
    (build_pagination_response page per_page total_count).total_pages =
      max 1 ((total_count + per_page - 1) / per_page) ∧
    (0 < total_count →
      (build_pagination_response page per_page total_count).total_pages =
        (total_count + per_page - 1) / per_page) := by
  refine ⟨by simp [build_pagination_response], by simp [build_pagination_response],
    rfl, fun htc => ?_⟩
  show max 1 ((total_count + per_page - 1) / per_page) = _
  exact Nat.max_eq_right (ceil_div_pos total_count per_page htc hpp)

/-- Witness for `pagination_metadata`, checking the claim's concrete
instances: 8640 rows at 10000 per page give one page and no next page;
25000 rows at 10000 per page, page 2, have both a next and a previous
page. -/
theorem pagination_metadata_witness :
    (build_pagination_response 1 10000 8640).total_pages = 1 ∧
    (build_pagination_response 1 10000 8640).has_next = false ∧
    (build_pagination_response 2 10000 25000).has_next = true ∧
    (build_pagination_response 2 10000 25000).has_prev = true := by
  have h1 := pagination_metadata 1 10000 8640 (by norm_num)
  have h2 := pagination_metadata 2 10000 25000 (by norm_num)
  refine ⟨?_, ?_, ?_, ?_⟩
  · rw [h1.2.2.2 (by norm_num)]
  · have := h1.1
    revert this
    decide
  · exact h2.1.mpr (by norm_num)
  · exact h2.2.1.mpr (by norm_num)

/-- C10.  Implicit pagination edge case: an empty result set
(`total_count = 0`) reports `total_pages = 1` (not 0) and
`has_next = false`; indeed `total_pages` is at least 1 for every input. -/
theorem pagination_empty_result (page per_page : Nat) (hpp : 0 < per_page) :
    (build_pagination_response page per_page 0).total_pages = 1 ∧
    (build_pagination_response page per_page 0).has_next = false ∧
    ∀ tc : Nat, 1 ≤ (build_pagination_response page per_page tc).total_pages := by
  refine ⟨?_, ?_, fun tc => ?_⟩
  · show max 1 ((0 + per_page - 1) / per_page) = 1
    have : (0 + per_page - 1) / per_page = 0 := by
      apply Nat.div_eq_of_lt
      omega
    rw [this]
    exact max_eq_left (Nat.zero_le 1)
  · simp [build_pagination_response]
  · exact le_max_left 1 _

/-- Witness for `pagination_empty_result` at page 1, 10000 per page. -/
theorem pagination_empty_result_witness :
    (build_pagination_response 1 10000 0).total_pages = 1 ∧
    (build_pagination_response 1 10000 0).has_next = false :=
  ⟨(pagination_empty_result 1 10000 (by norm_num)).1,
   (pagination_empty_result 1 10000 (by norm_num)).2.1⟩

/-! ### Optional date parsing (parse_optional_date in src/backend/main.py) -/

/-- Error taxonomy of the spec; `parse_optional_date` raising `ValueError`
on an unparseable date is the `MalformedInput` case. -/
inductive ApiError where
  | malformedInput
deriving DecidableEq, Repr

/-- Model of Python `str.strip()`: drop leading and trailing whitespace. -/
def pyStrip (s : String) : String :=
  String.mk
    (((s.data.dropWhile Char.isWhitespace).reverse.dropWhile
        Char.isWhitespace).reverse)

/-- Embeds `parse_optional_date(value)`: `None` or a blank string (falsy or
whitespace-only) is no constraint; otherwise the value is handed to the
standard library's `date.fromisoformat`, abstracted here as the
`fromisoformat` parameter, and a parse failure (a raised `ValueError`)
is the `MalformedInput` error. -/
def parse_optional_date {Date : Type} (fromisoformat : String → Option Date)
    (value : Option String) : Except ApiError (Option Date) :=
  match value with
  | none => Except.ok none
  | some s =>
    if s = "" ∨ pyStrip s = "" then
      Except.ok none
    else
      match fromisoformat s with
      | some d => Except.ok (some d)
      | none => Except.error ApiError.malformedInput

/-- Unfolding equation of `parse_optional_date` for a present value. -/
lemma parse_optional_date_some {Date : Type}
    (fromisoformat : String → Option Date) (s : String) :
    parse_optional_date fromisoformat (some s) =
      (if s = "" ∨ pyStrip s = "" then
        Except.ok none
      else
        match fromisoformat s with
        | some d => Except.ok (some d)
        | none => Except.error ApiError.malformedInput) := rfl

/-- C8.  Filter-builder date validation: for any calendar-date parser, an
absent or blank start-date value is treated as no constraint and is not an
error, a textually present value that the parser rejects yields a
`MalformedInput` error reported to the caller, and a parseable value
yields the parsed constraint. -/
theorem date_validation {Date : Type} (fromisoformat : String → Option Date)
    (value : Option String) :
    (value = none →
      parse_optional_date fromisoformat value = Except.ok none) ∧
    (∀ s, value = some s → pyStrip s = "" →
      parse_optional_date fromisoformat value = Except.ok none) ∧
    (∀ s, value = some s → pyStrip s ≠ "" → fromisoformat s = none →
      parse_optional_date fromisoformat value =
        Except.error ApiError.malformedInput) ∧
    (∀ s d, value = some s → pyStrip s ≠ "" → fromisoformat s = some d →
      parse_optional_date fromisoformat value = Except.ok (some d)) := by
  refine ⟨fun h => by rw [h]; rfl, fun s hv hblank => ?_, fun s hv hnb hp => ?_,
    fun s d hv hnb hp => ?_⟩
  · rw [hv, parse_optional_date_some, if_pos (Or.inr hblank)]
  · have hne : ¬ (s = "" ∨ pyStrip s = "") := by
      intro hor
      rcases hor with he | hb
      · exact hnb (by rw [he]; rfl)
      · exact hnb hb
    rw [hv, parse_optional_date_some, if_neg hne, hp]
  · have hne : ¬ (s = "" ∨ pyStrip s = "") := by
      intro hor
      rcases hor with he | hb
      · exact hnb (by rw [he]; rfl)
      · exact hnb hb
    rw [hv, parse_optional_date_some, if_neg hne, hp]

/-- Witness for `date_validation`: a present but unparseable value is a
`MalformedInput` error, while a blank value is no constraint. -/
theorem date_validation_witness :
    parse_optional_date (fun _ => (none : Option Nat)) (some "not-a-date") =
      Except.error ApiError.malformedInput ∧
    parse_optional_date (fun _ => (none : Option Nat)) (some "  ") =
      Except.ok none :=
  ⟨(date_validation (fun _ => (none : Option Nat)) (some "not-a-date")).2.2.1
      "not-a-date" rfl (by decide) rfl,
   (date_validation (fun _ => (none : Option Nat)) (some "  ")).2.1
      "  " rfl (by decide)⟩

/-! ### Sync cycle failure handling (run_sync in src/data_loader/main.py) -/

/-- Outcome of processing one measurement kind inside a sync cycle: the
fetch step raised a `requests.RequestException` (network / timeout /
non-2xx), some later step (normalization or persistence) raised another
exception, or the kind completed with some number of affected rows. -/
inductive KindOutcome where
  | fetchFailure
  | fatalError (msg : String)
  | completed (rows : Nat)
deriving DecidableEq, Repr

/-- Embeds the `for measurement_type, url in METER_URLS.items()` loop of
`run_sync` with its two exception handlers: `except RequestException`
logs and continues with the next kind, while `except Exception` re-raises,
aborting the cycle.  `total` accumulates `total_rows` and `processed` the
kinds that completed. -/
def run_sync_outcomes :
    List (String × KindOutcome) → Nat → List String →
      Except String (Nat × List String)
  | [], total, processed => Except.ok (total, processed)
  | (_, KindOutcome.fetchFailure) :: rest, total, processed =>
      run_sync_outcomes rest total processed
  | (_, KindOutcome.fatalError msg) :: _, _, _ => Except.error msg
  | (kind, KindOutcome.completed n) :: rest, total, processed =>
      run_sync_outcomes rest (total + n) (processed ++ [kind])

/-- C7.  Sync failure asymmetry: a fetch failure for one kind leaves the
cycle behaving exactly as if that kind were absent (all other kinds still
proceed), whereas the first normalization/persistence failure aborts the
cycle with that error propagated. -/
theorem sync_failure_asymmetry (pre post : List (String × KindOutcome))
    (kind msg : String) (total : Nat) (processed : List String)
    (hpre : ∀ p ∈ pre, ∀ m, p.2 ≠ KindOutcome.fatalError m) :
    run_sync_outcomes (pre ++ (kind, KindOutcome.fetchFailure) :: post)
        total processed =
      run_sync_outcomes (pre ++ post) total processed ∧
    run_sync_outcomes (pre ++ (kind, KindOutcome.fatalError msg) :: post)
        total processed = Except.error msg := by
  induction pre generalizing total processed with
  | nil => exact ⟨rfl, rfl⟩
  | cons p rest ih =>
    have hrest : ∀ q ∈ rest, ∀ m, q.2 ≠ KindOutcome.fatalError m :=
      fun q hq => hpre q (List.mem_cons_of_mem p hq)
    obtain ⟨k, o⟩ := p
    cases o with
    | fetchFailure =>
      simpa [run_sync_outcomes] using ih total processed hrest
    | fatalError m =>
      exact absurd rfl (hpre (k, KindOutcome.fatalError m)
        (List.mem_cons_self _ rest) m)
    | completed n =>
      simpa [run_sync_outcomes] using ih (total + n) (processed ++ [k]) hrest

/-- Witness for `sync_failure_asymmetry` on a concrete three-kind cycle. -/
theorem sync_failure_asymmetry_witness :
    run_sync_outcomes
        [("active", KindOutcome.completed 5),
         ("reactive", KindOutcome.fetchFailure),
         ("other", KindOutcome.completed 2)] 0 [] =
      Except.ok (7, ["active", "other"]) ∧
    run_sync_outcomes
        [("active", KindOutcome.completed 5),
         ("reactive", KindOutcome.fatalError "schema violation"),
         ("other", KindOutcome.completed 2)] 0 [] =
      Except.error "schema violation" := by
  have hpre : ∀ p ∈ [("active", KindOutcome.completed 5)],
      ∀ m, p.2 ≠ KindOutcome.fatalError m := by
    intro p hp m hcon
    rw [List.mem_singleton] at hp
    rw [hp] at hcon
    exact KindOutcome.noConfusion hcon
  have h := sync_failure_asymmetry [("active", KindOutcome.completed 5)]
    [("other", KindOutcome.completed 2)] "reactive" "schema violation" 0 []
    hpre
  exact ⟨h.1.trans rfl, h.2⟩

/-! ### Ingestion sync engine (src/data_loader/main.py)

A normalized record (one row of the `transform_data` output, equally one
row of the `meter_readings` table); timestamps are embedded as naturals
(instants are totally ordered and only compared). -/

/-- One normalized meter reading / stored table row. -/
structure NRecord where
  ts : Nat
  muid : String
  mtype : String
  reading : ℚ
  quality : String
deriving DecidableEq, Repr

/-- The WHERE clause of `get_latest_timestamp`: row belongs to the
(muid, measurement_type) series. -/
def matchesSeries (muid mtype : String) (r : NRecord) : Bool :=
  r.muid == muid && r.mtype == mtype

/-- SQL `MAX` over a list of timestamps: NULL (none) on the empty set. -/
def maxOfList : List Nat → Option Nat
  | [] => none
  | t :: ts => some (ts.foldl max t)

/-- Embeds `get_latest_timestamp(muid, measurement_type)`: the maximum
stored timestamp of the series, or none when the series has no rows. -/
def get_latest_timestamp (muid mtype : String) (store : List NRecord) :
    Option Nat :=
  maxOfList ((store.filter (matchesSeries muid mtype)).map NRecord.ts)

/-- The `ON CONFLICT` key of the upsert: (muid, timestamp, measurement_type). -/
def sameKey (a b : NRecord) : Bool :=
  a.muid == b.muid && a.ts == b.ts && a.mtype == b.mtype

/-- The key triple of a row. -/
def keyOf (r : NRecord) : String × Nat × String :=
  (r.muid, r.ts, r.mtype)

/-- One row of the `INSERT ... ON CONFLICT (muid, timestamp,
measurement_type) DO UPDATE SET reading, quality` statement: an existing
row with the same key has its `reading`/`quality` overwritten, otherwise
the row is appended. -/
def upsertOne (store : List NRecord) (r : NRecord) : List NRecord :=
  if store.any (sameKey r) then
    store.map fun s =>
      if sameKey r s then ⟨s.ts, s.muid, s.mtype, r.reading, r.quality⟩ else s
  else
    store ++ [r]

/-- Embeds `upsert_data`'s SQL statement over a whole batch; the function
reports `len(records)` as the affected-row count. -/
def upsert_data (store records : List NRecord) : List NRecord :=
  records.foldl upsertOne store

/-- The watermark filter step of `run_sync` for one measurement kind: the
series muid is read off the first record (`df["muid"].iloc[0]`); with a
stored watermark only strictly newer records survive
(`df[df["timestamp"] > latest_ts]`), on a first sync everything does. -/
def records_to_persist (mtype : String) (store df : List NRecord) :
    List NRecord :=
  match df with
  | [] => []
  | r0 :: _ =>
    match get_latest_timestamp r0.muid mtype store with
    | some w => df.filter fun r => decide (w < r.ts)
    | none => df

/-- Embeds one measurement kind's pass of `run_sync` after a successful
fetch and transform: watermark-filter, skip the upsert when nothing new
remains, otherwise upsert and report the affected-row count. -/
def run_sync_kind (mtype : String) (store df : List NRecord) :
    List NRecord × Nat :=
  let new := records_to_persist mtype store df
  if new.isEmpty then (store, 0) else (upsert_data store new, new.length)

/-! ### Helper lemmas for the sync engine -/

/-- The seed is below a `foldl max`. -/
lemma le_foldl_max (l : List Nat) (a : Nat) : a ≤ l.foldl max a := by
  induction l generalizing a with
  | nil => exact le_rfl
  | cons b bs ih => exact le_trans (le_max_left a b) (ih (max a b))

/-- Every element is below a `foldl max`. -/
lemma mem_le_foldl_max (l : List Nat) (a : Nat) :
    ∀ x ∈ l, x ≤ l.foldl max a := by
  induction l generalizing a with
  | nil => intro x hx; cases hx
  | cons b bs ih =>
    intro x hx
    rcases List.mem_cons.mp hx with rfl | hx'
    · exact le_trans (le_max_right a x) (le_foldl_max bs (max a x))
    · exact ih (max a b) x hx'

/-- A `foldl max` is the seed or one of the elements. -/
lemma foldl_max_mem (l : List Nat) (a : Nat) :
    l.foldl max a = a ∨ l.foldl max a ∈ l := by
  induction l generalizing a with
  | nil => exact Or.inl rfl
  | cons b bs ih =>
    rcases ih (max a b) with h | h
    · rcases max_cases a b with ⟨hm, _⟩ | ⟨hm, _⟩
      · exact Or.inl (by rw [List.foldl_cons, h, hm])
      · exact Or.inr (by rw [List.foldl_cons, h, hm]; exact List.mem_cons_self b bs)
    · exact Or.inr (List.mem_cons_of_mem b h)

/-- `maxOfList` bounds every element of the list. -/
lemma maxOfList_ge (l : List Nat) (w : Nat) (h : maxOfList l = some w) :
    ∀ x ∈ l, x ≤ w := by
  cases l with
  | nil => intro x hx; cases hx
  | cons t ts =>
    intro x hx
    have hw : ts.foldl max t = w := by
      have := h
      unfold maxOfList at this
      exact Option.some_injective _ this
    rcases List.mem_cons.mp hx with rfl | hx'
    · rw [← hw]; exact le_foldl_max ts x
    · rw [← hw]; exact mem_le_foldl_max ts t x hx'

/-- `maxOfList` of a nonempty list is one of its elements. -/
lemma maxOfList_mem (l : List Nat) (w : Nat) (h : maxOfList l = some w) :
    w ∈ l := by
  cases l with
  | nil => cases h
  | cons t ts =>
    have hw : ts.foldl max t = w := by
      have := h
      unfold maxOfList at this
      exact Option.some_injective _ this
    rcases foldl_max_mem ts t with h' | h'
    · rw [← hw, h']; exact List.mem_cons_self t ts
    · rw [← hw]; exact List.mem_cons_of_mem t h'

/-- `maxOfList` of a nonempty list is some value. -/
lemma maxOfList_isSome (l : List Nat) (hne : l ≠ []) :
    ∃ w, maxOfList l = some w := by
  cases l with
  | nil => exact absurd rfl hne
  | cons t ts => exact ⟨ts.foldl max t, rfl⟩

/-- Unfolding `matchesSeries` into propositional equalities. -/
lemma matchesSeries_eq_true (muid mtype : String) (r : NRecord) :
    matchesSeries muid mtype r = true ↔ r.muid = muid ∧ r.mtype = mtype := by
  simp [matchesSeries]

/-- A stored watermark bounds every stored row of its series. -/
lemma get_latest_timestamp_le (muid mtype : String) (store : List NRecord)
    (w : Nat) (hw : get_latest_timestamp muid mtype store = some w) :
    ∀ r ∈ store, matchesSeries muid mtype r = true → r.ts ≤ w := by
  intro r hr hm
  exact maxOfList_ge _ w hw r.ts
    (List.mem_map_of_mem NRecord.ts (List.mem_filter.mpr ⟨hr, hm⟩))

/-- A stored watermark is attained by some stored row of its series. -/
lemma get_latest_timestamp_mem (muid mtype : String) (store : List NRecord)
    (w : Nat) (hw : get_latest_timestamp muid mtype store = some w) :
    ∃ r ∈ store, matchesSeries muid mtype r = true ∧ r.ts = w := by
  have hwmem := maxOfList_mem _ w hw
  obtain ⟨r, hr, hts⟩ := List.mem_map.mp hwmem
  obtain ⟨hrs, hrm⟩ := List.mem_filter.mp hr
  exact ⟨r, hrs, hrm, hts⟩

/-- A series with at least one stored row has a watermark. -/
lemma get_latest_timestamp_isSome (muid mtype : String)
    (store : List NRecord) (r : NRecord) (hr : r ∈ store)
    (hm : matchesSeries muid mtype r = true) :
    ∃ w, get_latest_timestamp muid mtype store = some w := by
  apply maxOfList_isSome
  intro hnil
  have : r.ts ∈ (store.filter (matchesSeries muid mtype)).map NRecord.ts :=
    List.mem_map_of_mem NRecord.ts (List.mem_filter.mpr ⟨hr, hm⟩)
  rw [hnil] at this
  cases this

/-- `upsertOne` preserves the keys already in the store. -/
lemma upsertOne_keys (store : List NRecord) (r x : NRecord) (hx : x ∈ store) :
    ∃ y ∈ upsertOne store r, keyOf y = keyOf x := by
  unfold upsertOne
  by_cases h : store.any (sameKey r) = true
  · rw [if_pos h]
    refine ⟨if sameKey r x then ⟨x.ts, x.muid, x.mtype, r.reading, r.quality⟩
      else x, List.mem_map_of_mem _ hx, ?_⟩
    by_cases hk : sameKey r x = true
    · rw [if_pos hk]; rfl
    · rw [if_neg hk]
  · rw [if_neg h]
    exact ⟨x, List.mem_append_left _ hx, rfl⟩

/-- After `upsertOne store r`, the key of `r` is present in the store. -/
lemma upsertOne_key_self (store : List NRecord) (r : NRecord) :
    ∃ y ∈ upsertOne store r, keyOf y = keyOf r := by
  unfold upsertOne
  by_cases h : store.any (sameKey r) = true
  · rw [if_pos h]
    obtain ⟨x, hx, hkx⟩ := List.any_eq_true.mp h
    refine ⟨⟨x.ts, x.muid, x.mtype, r.reading, r.quality⟩, ?_, ?_⟩
    · have hweq : (if sameKey r x then
          (⟨x.ts, x.muid, x.mtype, r.reading, r.quality⟩ : NRecord)
        else x) = ⟨x.ts, x.muid, x.mtype, r.reading, r.quality⟩ :=
        if_pos hkx
      rw [← hweq]
      exact List.mem_map_of_mem _ hx
    · have hk : r.muid = x.muid ∧ r.ts = x.ts ∧ r.mtype = x.mtype := by
        simpa [sameKey, and_assoc] using hkx
      unfold keyOf
      rw [hk.1, hk.2.1, hk.2.2]
  · rw [if_neg h]
    exact ⟨r, List.mem_append_right _ (List.mem_singleton_self r), rfl⟩

/-- `upsert_data` preserves the keys already in the store. -/
lemma upsert_data_keys (recs : List NRecord) (store : List NRecord)
    (x : NRecord) (hx : x ∈ store) :
    ∃ y ∈ upsert_data store recs, keyOf y = keyOf x := by
  induction recs generalizing store x with
  | nil => exact ⟨x, hx, rfl⟩
  | cons c cs ih =>
    obtain ⟨y, hy, hky⟩ := upsertOne_keys store c x hx
    obtain ⟨z, hz, hkz⟩ := ih (upsertOne store c) y hy
    exact ⟨z, hz, hkz.trans hky⟩

/-- Every upserted record's key is present after `upsert_data`. -/
lemma upsert_data_key_of_mem (recs : List NRecord) (store : List NRecord)
    (r : NRecord) (hr : r ∈ recs) :
    ∃ y ∈ upsert_data store recs, keyOf y = keyOf r := by
  induction recs generalizing store with
  | nil => cases hr
  | cons c cs ih =>
    rcases List.mem_cons.mp hr with rfl | hr'
    · obtain ⟨y, hy, hky⟩ := upsertOne_key_self store r
      obtain ⟨z, hz, hkz⟩ := upsert_data_keys cs (upsertOne store r) y hy
      exact ⟨z, hz, hkz.trans hky⟩
    · exact ih (upsertOne store c) hr'

/-- Unfolding equation of `records_to_persist` on a nonempty batch. -/
lemma records_to_persist_cons (mtype : String) (store : List NRecord)
    (r0 : NRecord) (rest : List NRecord) :
    records_to_persist mtype store (r0 :: rest) =
      (match get_latest_timestamp r0.muid mtype store with
      | some w => (r0 :: rest).filter fun r => decide (w < r.ts)
      | none => r0 :: rest) := rfl

/-- Unfolding equation of `run_sync_kind`. -/
lemma run_sync_kind_def (mtype : String) (store df : List NRecord) :
    run_sync_kind mtype store df =
      if (records_to_persist mtype store df).isEmpty then (store, 0)
      else (upsert_data store (records_to_persist mtype store df),
        (records_to_persist mtype store df).length) := rfl

/-! ### Claim theorems: watermark filtering and sync idempotence -/

/-- C3.  Watermark filtering: in a sync cycle whose store watermark for the
batch's (meterId, measurementKind) series is W, exactly the normalized
records with timestamp > W are kept for persistence (every record with
timestamp <= W is discarded), and when no stored timestamp exists (first
sync) the whole batch is kept. -/
theorem watermark_filtering (mtype : String) (store : List NRecord)
    (r0 : NRecord) (rest : List NRecord) :
    (∀ w, get_latest_timestamp r0.muid mtype store = some w →
      ∀ r, r ∈ records_to_persist mtype store (r0 :: rest) ↔
        (r ∈ r0 :: rest ∧ w < r.ts)) ∧
    (get_latest_timestamp r0.muid mtype store = none →
      records_to_persist mtype store (r0 :: rest) = r0 :: rest) := by
  constructor
  · intro w hw r
    rw [records_to_persist_cons, hw]
    simp only [List.mem_filter, decide_eq_true_eq]
  · intro hn
    rw [records_to_persist_cons, hn]

/-- Witness for `watermark_filtering`: with a stored watermark of 5, a
record at timestamp 7 is kept and one at timestamp 3 is discarded. -/
theorem watermark_filtering_witness :
    ((⟨7, "A", "active", 1, "m"⟩ : NRecord) ∈
      records_to_persist "active" [⟨5, "A", "active", 1, "m"⟩]
        [⟨3, "A", "active", 1, "m"⟩, ⟨7, "A", "active", 1, "m"⟩]) ∧
    ¬ ((⟨3, "A", "active", 1, "m"⟩ : NRecord) ∈
      records_to_persist "active" [⟨5, "A", "active", 1, "m"⟩]
        [⟨3, "A", "active", 1, "m"⟩, ⟨7, "A", "active", 1, "m"⟩]) := by
  have h := (watermark_filtering "active" [⟨5, "A", "active", 1, "m"⟩]
    ⟨3, "A", "active", 1, "m"⟩ [⟨7, "A", "active", 1, "m"⟩]).1 5 rfl
  constructor
  · exact (h ⟨7, "A", "active", 1, "m"⟩).mpr
      ⟨by simp, by norm_num⟩
  · intro hmem
    have h3 := (h ⟨3, "A", "active", 1, "m"⟩).mp hmem
    exact absurd h3.2 (by norm_num)

/-- C4 counterexample: the claim fails when a feed's batch carries two
distinct meter ids (the anomaly the code only logs).  With an empty store
and the snapshot [(muid "A", ts 1), (muid "B", ts 2)], the second sync run
computes the watermark only for "A" (the first record's muid), so it
re-persists the "B" record and reports 1 affected row, not 0. -/
theorem sync_idempotence_counterexample :
    (run_sync_kind "active"
      (run_sync_kind "active" []
        [⟨1, "A", "active", 1, "m"⟩, ⟨2, "B", "active", 1, "m"⟩]).1
      [⟨1, "A", "active", 1, "m"⟩, ⟨2, "B", "active", 1, "m"⟩]).2 = 1 ∧
    (run_sync_kind "active"
      (run_sync_kind "active" []
        [⟨1, "A", "active", 1, "m"⟩, ⟨2, "B", "active", 1, "m"⟩]).1
      [⟨1, "A", "active", 1, "m"⟩, ⟨2, "B", "active", 1, "m"⟩]).2 ≠ 0 := by
  constructor
  · rfl
  · decide

/-- C4 (amended).  Sync idempotence for single-meter feeds: when every
record of the (unchanged) source batch carries the same meterId and the
batch's measurement kind — the expected shape of a feed — running the sync
twice persists zero newly-affected rows on the second run and leaves the
store identical to its state after the first run. -/
theorem sync_idempotent (mtype muid0 : String) (store df : List NRecord)
    (hmu : ∀ r ∈ df, r.muid = muid0)
    (hmt : ∀ r ∈ df, r.mtype = mtype) :
    run_sync_kind mtype (run_sync_kind mtype store df).1 df =
      ((run_sync_kind mtype store df).1, 0) := by
  cases df with
  | nil => rfl
  | cons r0 rest =>
    by_cases hnew : (records_to_persist mtype store (r0 :: rest)).isEmpty
    · have h1 : run_sync_kind mtype store (r0 :: rest) = (store, 0) := by
        rw [run_sync_kind_def, if_pos hnew]
      rw [h1]
      show run_sync_kind mtype store (r0 :: rest) = (store, 0)
      exact h1
    · have h1 : run_sync_kind mtype store (r0 :: rest) =
          (upsert_data store (records_to_persist mtype store (r0 :: rest)),
            (records_to_persist mtype store (r0 :: rest)).length) := by
        rw [run_sync_kind_def, if_neg hnew]
      rw [h1]
      show run_sync_kind mtype
        (upsert_data store (records_to_persist mtype store (r0 :: rest)))
        (r0 :: rest) = _
      have core : ∀ r ∈ r0 :: rest,
          ∃ y ∈ upsert_data store
              (records_to_persist mtype store (r0 :: rest)),
            matchesSeries muid0 mtype y = true ∧ r.ts ≤ y.ts := by
        intro r hr
        have hrmu : r.muid = muid0 := hmu r hr
        have hrmt : r.mtype = mtype := hmt r hr
        cases hg : get_latest_timestamp r0.muid mtype store with
        | none =>
          have hrnew : r ∈ records_to_persist mtype store (r0 :: rest) := by
            rw [records_to_persist_cons, hg]
            exact hr
          obtain ⟨y, hy, hky⟩ := upsert_data_key_of_mem _ store r hrnew
          have hk : y.muid = r.muid ∧ y.ts = r.ts ∧ y.mtype = r.mtype := by
            have h1' : (y.muid, y.ts, y.mtype) = (r.muid, r.ts, r.mtype) := hky
            exact ⟨congrArg Prod.fst h1',
              congrArg Prod.fst (congrArg Prod.snd h1'),
              congrArg Prod.snd (congrArg Prod.snd h1')⟩
          refine ⟨y, hy, ?_, le_of_eq hk.2.1.symm⟩
          rw [matchesSeries_eq_true]
          exact ⟨hk.1.trans hrmu, hk.2.2.trans hrmt⟩
        | some w =>
          by_cases hlt : w < r.ts
          · have hrnew : r ∈ records_to_persist mtype store (r0 :: rest) := by
              rw [records_to_persist_cons, hg]
              exact List.mem_filter.mpr ⟨hr, by simpa using hlt⟩
            obtain ⟨y, hy, hky⟩ := upsert_data_key_of_mem _ store r hrnew
            have hk : y.muid = r.muid ∧ y.ts = r.ts ∧ y.mtype = r.mtype := by
              have h1' : (y.muid, y.ts, y.mtype) = (r.muid, r.ts, r.mtype) := hky
              exact ⟨congrArg Prod.fst h1',
                congrArg Prod.fst (congrArg Prod.snd h1'),
                congrArg Prod.snd (congrArg Prod.snd h1')⟩
            refine ⟨y, hy, ?_, le_of_eq hk.2.1.symm⟩
            rw [matchesSeries_eq_true]
            exact ⟨hk.1.trans hrmu, hk.2.2.trans hrmt⟩
          · obtain ⟨x, hx, hmx, htx⟩ :=
              get_latest_timestamp_mem r0.muid mtype store w hg
            obtain ⟨y, hy, hky⟩ := upsert_data_keys _ store x hx
            have hk : y.muid = x.muid ∧ y.ts = x.ts ∧ y.mtype = x.mtype := by
              have h1' : (y.muid, y.ts, y.mtype) = (x.muid, x.ts, x.mtype) := hky
              exact ⟨congrArg Prod.fst h1',
                congrArg Prod.fst (congrArg Prod.snd h1'),
                congrArg Prod.snd (congrArg Prod.snd h1')⟩
            have hxmu : x.muid = muid0 := by
              have := (matchesSeries_eq_true r0.muid mtype x).mp hmx
              rw [this.1]
              exact hmu r0 (List.mem_cons_self r0 rest)
            have hxmt : x.mtype = mtype :=
              ((matchesSeries_eq_true r0.muid mtype x).mp hmx).2
            refine ⟨y, hy, ?_, ?_⟩
            · rw [matchesSeries_eq_true]
              exact ⟨hk.1.trans hxmu, hk.2.2.trans hxmt⟩
            · rw [hk.2.1, htx]
              exact le_of_not_lt hlt
      obtain ⟨y0, hy0, hmy0, _⟩ := core r0 (List.mem_cons_self r0 rest)
      obtain ⟨w1, hw1⟩ :=
        get_latest_timestamp_isSome muid0 mtype _ y0 hy0 hmy0
      have hle : ∀ r ∈ r0 :: rest, r.ts ≤ w1 := by
        intro r hr
        obtain ⟨y, hy, hmy, hty⟩ := core r hr
        exact le_trans hty (get_latest_timestamp_le muid0 mtype _ w1 hw1 y hy hmy)
      have hw1' : get_latest_timestamp r0.muid mtype
          (upsert_data store (records_to_persist mtype store (r0 :: rest))) =
            some w1 := by
        rw [hmu r0 (List.mem_cons_self r0 rest)]
        exact hw1
      have hpersist2 : records_to_persist mtype
          (upsert_data store (records_to_persist mtype store (r0 :: rest)))
          (r0 :: rest) = [] := by
        rw [records_to_persist_cons, hw1']
        apply List.filter_eq_nil_iff.mpr
        intro r hr
        simp only [decide_eq_true_eq]
        exact not_lt.mpr (hle r hr)
      rw [run_sync_kind_def, hpersist2]
      rfl

/-- Witness for `sync_idempotent` on a concrete single-meter batch over an
empty store. -/
theorem sync_idempotent_witness :
    run_sync_kind "active"
      (run_sync_kind "active" []
        [⟨1, "A", "active", 1, "m"⟩, ⟨2, "A", "active", 2, "m"⟩]).1
      [⟨1, "A", "active", 1, "m"⟩, ⟨2, "A", "active", 2, "m"⟩] =
    ((run_sync_kind "active" []
        [⟨1, "A", "active", 1, "m"⟩, ⟨2, "A", "active", 2, "m"⟩]).1, 0) :=
  sync_idempotent "active" "A" []
    [⟨1, "A", "active", 1, "m"⟩, ⟨2, "A", "active", 2, "m"⟩]
    (by intro r hr; fin_cases hr <;> rfl)
    (by intro r hr; fin_cases hr <;> rfl)

/-! ### Heatmap (fetch_heatmap in src/backend/main.py)

A stored reading as the analytics queries see it: `hour` and `dow` are the
PostgreSQL `EXTRACT(HOUR ...)` / `EXTRACT(DOW ...)` projections of the
timestamp, so they live in `Fin 24` and `Fin 7`. -/

/-- One `meter_readings` row as projected by the analytics queries. -/
structure Reading where
  ts : Nat
  hour : Fin 24
  dow : Fin 7
  mtype : String
  reading : ℚ
deriving DecidableEq, Repr

/-- The `meter` query parameter (active, reactive, or both). -/
inductive MeterTypeS where
  | active
  | reactive
  | both
deriving DecidableEq, Repr

/-- The filter state assembled by `build_query_filters`: optional inclusive
start/end bounds, the meter restriction, and the weekday/weekend flags
(`if weekday_only: ... elif weekend_only: ...`). -/
structure QueryFiltersS where
  start_date : Option Nat
  end_date : Option Nat
  meter : MeterTypeS
  weekday_only : Bool
  weekend_only : Bool
deriving DecidableEq, Repr

/-- The meaning of the non-meter filter conditions ("timestamp >= :start",
"timestamp <= :end", and the `EXTRACT(DOW ...)` weekday/weekend
conditions).  `fetch_heatmap` strips any `measurement_type` condition
(`[c for c in filters.conditions if "measurement_type" not in c]`), so the
meter restriction does not appear here. -/
def matchesBase (f : QueryFiltersS) (r : Reading) : Bool :=
  (match f.start_date with
    | some s => decide (s ≤ r.ts)
    | none => true) &&
  (match f.end_date with
    | some e => decide (r.ts ≤ e)
    | none => true) &&
  (if f.weekday_only then decide (1 ≤ r.dow.val ∧ r.dow.val ≤ 5)
   else if f.weekend_only then decide (r.dow.val = 0 ∨ r.dow.val = 6)
   else true)

/-- The readings of one (hour, day-of-week) group of the heatmap query for
a given measurement kind. -/
def cellReadings (f : QueryFiltersS) (kind : String) (store : List Reading)
    (h : Fin 24) (d : Fin 7) : List Reading :=
  store.filter fun r =>
    matchesBase f r && r.mtype == kind && r.hour == h && r.dow == d

/-- SQL `AVG` over a list of values. -/
def listAvg (l : List ℚ) : ℚ := l.sum / l.length

/-- All (hour, day-of-week) group keys. -/
def allCells : List (Fin 24 × Fin 7) :=
  (List.finRange 24).flatMap fun h => (List.finRange 7).map fun d => (h, d)

/-- The result rows of the heatmap `GROUP BY` query: one (hour, dow, avg)
row per group that has at least one matching reading. -/
def heatmapRows (f : QueryFiltersS) (kind : String) (store : List Reading) :
    List (Fin 24 × Fin 7 × ℚ) :=
  allCells.filterMap fun hd =>
    let g := cellReadings f kind store hd.1 hd.2
    if g.isEmpty then none
    else some (hd.1, hd.2, listAvg (g.map Reading.reading))

/-- The initial Python matrix: `[[0.0 for _ in range(7)] for _ in range(24)]`. -/
def emptyMatrix : List (List ℚ) :=
  List.replicate 24 (List.replicate 7 0)

/-- One `matrix[row["hour"]][row["day_of_week"]] = avg` assignment. -/
def setCell (m : List (List ℚ)) (h d : Nat) (v : ℚ) : List (List ℚ) :=
  m.set h ((m.getD h []).set d v)

/-- The matrix-filling loop of `fetch_heatmap`. -/
def buildMatrix (rows : List (Fin 24 × Fin 7 × ℚ)) : List (List ℚ) :=
  rows.foldl (fun acc row => setCell acc row.1.val row.2.1.val row.2.2)
    emptyMatrix

/-- Embeds the `values` matrix that `fetch_heatmap` produces for one
measurement kind of its `for meter_type in ["active", "reactive"]` loop
(the `AVG` display rounding `round(x, 6)` is abstracted). -/
def fetch_heatmap (f : QueryFiltersS) (store : List Reading)
    (kind : String) : List (List ℚ) :=
  buildMatrix (heatmapRows f kind store)

/-! ### Helper lemmas for the heatmap -/

/-- Setting an index other than `j` does not change entry `j`. -/
lemma getD_set_ne {α : Type} (l : List α) (i j : Nat) (v d : α)
    (hij : i ≠ j) : (l.set i v).getD j d = l.getD j d := by
  induction l generalizing i j with
  | nil => rfl
  | cons a as ih =>
    cases i with
    | zero =>
      cases j with
      | zero => exact absurd rfl hij
      | succ jj => rfl
    | succ ii =>
      cases j with
      | zero => rfl
      | succ jj =>
        show (as.set ii v).getD jj d = as.getD jj d
        exact ih ii jj (by omega)

/-- Setting an in-range index `i` makes entry `i` the new value. -/
lemma getD_set_self {α : Type} (l : List α) (i : Nat) (v d : α)
    (hi : i < l.length) : (l.set i v).getD i d = v := by
  induction l generalizing i with
  | nil => cases hi
  | cons a as ih =>
    cases i with
    | zero => rfl
    | succ ii =>
      show (as.set ii v).getD ii d = v
      exact ih ii (by simpa using hi)

/-- Membership in a heatmap group unfolded. -/
lemma mem_cellReadings (f : QueryFiltersS) (kind : String)
    (store : List Reading) (h : Fin 24) (d : Fin 7) (r : Reading) :
    r ∈ cellReadings f kind store h d ↔
      r ∈ store ∧ matchesBase f r = true ∧ r.mtype = kind ∧
        r.hour = h ∧ r.dow = d := by
  simp [cellReadings, List.mem_filter, and_assoc]

/-- Every row of the heatmap query witnesses at least one matching
reading in its cell. -/
lemma heatmapRows_key (f : QueryFiltersS) (kind : String)
    (store : List Reading) (row : Fin 24 × Fin 7 × ℚ)
    (hmem : row ∈ heatmapRows f kind store) :
    ∃ r ∈ store, matchesBase f r = true ∧ r.mtype = kind ∧
      r.hour = row.1 ∧ r.dow = row.2.1 := by
  obtain ⟨hd, _, hsome⟩ := List.mem_filterMap.mp hmem
  by_cases hempty : (cellReadings f kind store hd.1 hd.2).isEmpty
  · rw [if_pos hempty] at hsome
    cases hsome
  · rw [if_neg hempty] at hsome
    obtain ⟨r, hr⟩ := List.exists_mem_of_ne_nil _
      (by simpa [List.isEmpty_iff] using hempty)
    obtain ⟨hrs, hrb, hrk, hrh, hrd⟩ := (mem_cellReadings f kind store hd.1 hd.2 r).mp hr
    have hrow : row = (hd.1, hd.2, listAvg ((cellReadings f kind store hd.1 hd.2).map Reading.reading)) :=
      (Option.some_injective _ hsome).symm
    refine ⟨r, hrs, hrb, hrk, ?_, ?_⟩
    · rw [hrow]; exact hrh
    · rw [hrow]; exact hrd

/-- The matrix-filling fold keeps 24 rows of 7 entries. -/
lemma buildMatrix_shape (rows : List (Fin 24 × Fin 7 × ℚ))
    (m : List (List ℚ)) (hlen : m.length = 24)
    (hrows : ∀ row ∈ m, row.length = 7) :
    (rows.foldl (fun acc row => setCell acc row.1.val row.2.1.val row.2.2)
        m).length = 24 ∧
    ∀ row ∈ rows.foldl
        (fun acc row => setCell acc row.1.val row.2.1.val row.2.2) m,
      row.length = 7 := by
  induction rows generalizing m with
  | nil => exact ⟨hlen, hrows⟩
  | cons c cs ih =>
    apply ih
    · simpa [setCell] using hlen
    · intro row hrow
      rcases List.mem_or_eq_of_mem_set hrow with hmem | rfl
      · exact hrows row hmem
      · rw [List.length_set]
        have hc : c.1.val < m.length := by rw [hlen]; exact c.1.isLt
        have : m.getD c.1.val [] ∈ m := by
          rw [List.getD_eq_getElem m [] hc]
          exact List.getElem_mem hc
        exact hrows _ this

/-- A cell no processed row addresses keeps its current value. -/
lemma buildMatrix_untouched (rows : List (Fin 24 × Fin 7 × ℚ))
    (m : List (List ℚ)) (h : Fin 24) (d : Fin 7) (hlen : m.length = 24)
    (hkeys : ∀ row ∈ rows, ¬(row.1 = h ∧ row.2.1 = d)) :
    ((rows.foldl (fun acc row => setCell acc row.1.val row.2.1.val row.2.2)
        m).getD h.val []).getD d.val 0 =
      (m.getD h.val []).getD d.val 0 := by
  induction rows generalizing m with
  | nil => rfl
  | cons c cs ih =>
    have hkey : ¬(c.1 = h ∧ c.2.1 = d) := hkeys c (List.mem_cons_self c cs)
    have hcs : ∀ row ∈ cs, ¬(row.1 = h ∧ row.2.1 = d) := fun row hrow =>
      hkeys row (List.mem_cons_of_mem c hrow)
    have hstep :
        ((setCell m c.1.val c.2.1.val c.2.2).getD h.val []).getD d.val 0 =
          (m.getD h.val []).getD d.val 0 := by
      by_cases hh : c.1.val = h.val
      · have hd2 : c.2.1.val ≠ d.val := by
          intro hdv
          exact hkey ⟨Fin.ext hh, Fin.ext hdv⟩
        have hhm : c.1.val < m.length := by rw [hlen]; exact c.1.isLt
        unfold setCell
        rw [hh, getD_set_self m h.val _ [] (by rw [hlen]; exact h.isLt)]
        rw [← hh]
        exact getD_set_ne _ _ _ _ _ hd2
      · unfold setCell
        rw [getD_set_ne _ _ _ _ _ hh]
    rw [List.foldl_cons]
    rw [ih (setCell m c.1.val c.2.1.val c.2.2) (by simpa [setCell] using hlen) hcs]
    exact hstep

/-- C5.  Heatmap completeness and kind-independence: for every filter,
store and measurement kind, the heatmap matrix has exactly 24 rows of 7
cells; every (hour, day-of-week) cell with no matching reading of that
kind equals 0; and the result ignores the filter's measurement-kind
restriction (replacing `meter` by any value leaves it unchanged). -/
theorem heatmap_complete (f : QueryFiltersS) (store : List Reading)
    (kind : String) :
    (fetch_heatmap f store kind).length = 24 ∧
    (∀ row ∈ fetch_heatmap f store kind, row.length = 7) ∧
    (∀ h : Fin 24, ∀ d : Fin 7,
      (∀ r ∈ store, ¬(matchesBase f r = true ∧ r.mtype = kind ∧
        r.hour = h ∧ r.dow = d)) →
      ((fetch_heatmap f store kind).getD h.val []).getD d.val 0 = 0) ∧
    (∀ m : MeterTypeS,
      fetch_heatmap f store kind =
        fetch_heatmap
          ⟨f.start_date, f.end_date, m, f.weekday_only, f.weekend_only⟩
          store kind) := by
  have hshape := buildMatrix_shape (heatmapRows f kind store) emptyMatrix
    (by simp [emptyMatrix]) (by
      intro row hrow
      have := List.eq_of_mem_replicate hrow
      rw [this]
      simp)
  refine ⟨hshape.1, hshape.2, ?_, fun m => rfl⟩
  intro h d hno
  have hkeys : ∀ row ∈ heatmapRows f kind store, ¬(row.1 = h ∧ row.2.1 = d) := by
    intro row hrow hcon
    obtain ⟨r, hrs, hrtrue, hrk, hrh, hrd⟩ := heatmapRows_key f kind store row hrow
    exact hno r hrs ⟨hrtrue, hrk, by rw [hrh, hcon.1], by rw [hrd, hcon.2]⟩
  have huntouched := buildMatrix_untouched (heatmapRows f kind store)
    emptyMatrix h d (by simp [emptyMatrix]) hkeys
  have h1 : emptyMatrix.getD h.val [] = List.replicate 7 (0 : ℚ) := by
    unfold emptyMatrix
    rw [List.getD_eq_getElem _ [] (by simp [h.isLt])]
    exact List.getElem_replicate _ _
  have h2 : (List.replicate 7 (0 : ℚ)).getD d.val 0 = 0 := by
    rw [List.getD_eq_getElem _ 0 (by simp [d.isLt])]
    exact List.getElem_replicate _ _
  exact huntouched.trans (by rw [h1, h2])

/-- Witness for `heatmap_complete`: with an empty store, an untouched cell
is 0 in the unfiltered heatmap. -/
theorem heatmap_complete_witness :
    ((fetch_heatmap ⟨none, none, MeterTypeS.both, false, false⟩ [] "active").getD 3 []).getD 2 0 = 0 :=
  (heatmap_complete ⟨none, none, MeterTypeS.both, false, false⟩ [] "active").2.2.1
    ⟨3, by norm_num⟩ ⟨2, by norm_num⟩ (by intro r hr; cases hr)

end Exnaton
